import Mathlib

/-!
Verification of the Stage-2 training script `train_stage2.py`.

The script's integer bookkeeping — the stride/offset selection and mask
construction of `calculate_loss`, the train/eval epoch drivers, the batch
grouping of `get_torch_dataloader`, and the checkpointing loop of `main` —
is embedded shallowly below.  Tensor-valued collaborators (the context
encoder, the autoregressive model, `log_softmax`, the base Adam optimizer)
are abstracted as function parameters: the embedding keeps every index
computation and every piece of control flow of the script itself.
-/

namespace TrainStage2

variable {E A O B ι α : Type}

/-- Line 32: `offset = max(int(length/batch_size), 1)`, the stride between
supervision points.  Python `int()` of a nonnegative true division truncates
towards zero, which is `Nat` division. -/
def offset (L batch_size : Nat) : Nat := max (L / batch_size) 1

/-- Line 33: `total_length = min(batch_size*offset, length-1)`. -/
def total_length (L batch_size : Nat) : Nat :=
  min (batch_size * offset L batch_size) (L - 1)

/-- The indices selected by the Python slice `[:stop:step]` (with
nonnegative bounds): the positions below `stop` that are multiples of
`step` (lines 34 and 39). -/
def sliceIndices (stop step : Nat) : List Nat :=
  (List.range stop).filter (fun k => k % step == 0)

/-- The value `ceil(total_length/offset)`: the number of supervision points sampled
from a trajectory of recorded length `L` split into `batch_size` chunks. -/
def pointsCount (L batch_size : Nat) : Nat :=
  (total_length L batch_size + offset L batch_size - 1) / offset L batch_size

/-- Entry `(r, c)` of `torch.tril(torch.ones(rows, cols), diagonal=2)`
(line 38): ones on and below the second superdiagonal. -/
def maskEntry (r c : Nat) : Nat := if c ≤ r + 2 then 1 else 0

/-- Sum of row `r` of the mask over `cols` columns (`mask.sum(dim=1)`,
line 41). -/
def rowSum (cols r : Nat) : Nat :=
  ((List.range cols).map (fun c => maskEntry r c)).sum

/-- Line 41: `target_value_index = mask.sum(dim=1) - 1` at mask row `r`. -/
def target_value_index (cols r : Nat) : Nat := rowSum cols r - 1

/-- The integer metadata of one collated batch (`batch_data`): the number of
trajectories (`batch_data['map'].shape[0]`), the per-trajectory recorded
length (`batch_data['length'][i]`) and the padded target key sequence
(`batch_data['target_seq_id'][i, p]`). -/
structure BatchData where
  numTraj : Nat
  length : Nat → Nat
  target_seq_id : Nat → Nat → Nat

/-- The loss term of one trajectory (lines 32-45).  `nlp j p k` abstracts
the tensor entry `(-F.log_softmax(ar_model(input.repeat(bsz,1,1), mask),
dim=-1))[j, p, k]` produced for this trajectory; the script gathers its
entries at `[arange(bsz_i), target_value_index, label]` and sums them,
where `bsz_i` is the number of sampled rows, `target_value_index[j]` is the
row-sum of sliced mask row `j` minus one, and `label[j]` is the target key
at the `j`-th sampled position. -/
def trajLoss (nlp : Nat → Nat → Nat → ℚ) (tsid : Nat → Nat)
    (L batch_size : Nat) : ℚ :=
  let o := offset L batch_size
  let t := total_length L batch_size
  let rows := sliceIndices t o
  ((List.range rows.length).map (fun j =>
    nlp j (target_value_index (t + 2) (rows.getD j 0))
      (tsid (rows.getD j 0)))).sum

/-- The function `calculate_loss` (lines 24-46), with the autoregressive model and
`log_softmax` abstracted: `nlp i` is the negative-log-softmax tensor
produced for trajectory `i` (see `trajLoss`).  The loop accumulates the
per-trajectory sums and divides by `batch_data['map'].shape[0]`. -/
def calculate_loss (nlp : Nat → Nat → Nat → Nat → ℚ) (batch_data : BatchData)
    (batch_size : Nat) : ℚ :=
  ((List.range batch_data.numTraj).foldl
    (fun loss i =>
      loss + trajLoss (nlp i) (batch_data.target_seq_id i)
        (batch_data.length i) batch_size)
    0) / (batch_data.numTraj : ℚ)

/-- Modelled from the spec: `modules/optim.ScheduledOptim` is not among the
sources; per the spec it "wraps a base gradient-based optimizer; computes a
learning rate as a function of step count and a warmup horizon, applies it
before each parameter update, and exposes step/update as a single call".
State of the wrapper: the step counter `n_steps`, the constants
`(lr_mul, d_model, n_warmup_steps)` that `main` passes (lines 164-169), and
the wrapped optimizer's own state `inner`.  Since the schedule's value
involves square roots, the learning-rate multiplier is carried as its
square (`lr_mul_sq = lr_mul²`), a strictly monotone encoding on
nonnegative values that keeps the development in `ℚ`. -/
structure ScheduledOptim (O : Type) where
  n_steps : Nat
  lr_mul_sq : ℚ
  d_model : Nat
  n_warmup_steps : Nat
  inner : O

/-- Modelled from the spec: the square of the scheduled learning rate, the
inverse-square-root warmup schedule determined by
`(lr_mul, d_model, n_warmup_steps)`:
`lr = lr_mul * d_model^(-1/2) * min(n^(-1/2), n * n_warmup_steps^(-3/2))`,
represented by its square so that every value is rational. -/
def lrSqOf (s : ScheduledOptim O) : ℚ :=
  s.lr_mul_sq / (s.d_model : ℚ) *
    min (1 / (s.n_steps : ℚ)) (((s.n_steps : ℚ)) ^ 2 / ((s.n_warmup_steps : ℚ)) ^ 3)

/-- Modelled from the spec: `step_and_update_lr` — the single call that
advances the step counter, computes the learning rate for the new step
count, applies it, and performs one step of the wrapped optimizer.
`innerStep lr² (enc, ar, inner)` abstracts the base optimizer's parameter
update at that learning rate. -/
def step_and_update_lr (innerStep : ℚ → E × A × O → E × A × O)
    (params : E × A) (s : ScheduledOptim O) : (E × A) × ScheduledOptim O :=
  let s1 : ScheduledOptim O := { s with n_steps := s.n_steps + 1 }
  let upd := innerStep (lrSqOf s1) (params.1, params.2, s.inner)
  ((upd.1, upd.2.1), { s1 with inner := upd.2.2 })

/-- The scheduled optimizer `main` constructs (lines 164-169):
`lr_mul = 0.2` (squared: `1/25`), `d_model = 512`, `n_warmup_steps = 2400`,
with a fresh step counter. -/
def mainSchedInit (inner : O) : ScheduledOptim O :=
  { n_steps := 0, lr_mul_sq := 1 / 25, d_model := 512,
    n_warmup_steps := 2400, inner := inner }

/-- The squared learning rate of `main`'s scheduled optimizer at step
count `n`. -/
def mainLrSq (n : Nat) : ℚ := lrSqOf { mainSchedInit () with n_steps := n }

/-- The two models with their train/eval mode flags (`model_i.train()` /
`model_i.eval()`), and their parameters abstracted as `E` (context
encoder) and `A` (autoregressive model). -/
structure Nets (E A : Type) where
  encTrain : Bool
  arTrain : Bool
  enc : E
  ar : A

/-- The framework collaborators of the script, abstracted:
`nlpOf enc ar b i j p k` is the negative-log-softmax tensor entry produced
for trajectory `i` of batch `b` when the models hold parameters
`enc`/`ar` (it absorbs the context-encoder forward pass of line 63 and the
autoregressive forward pass of line 42); `batchOf` extracts the integer
metadata of a batch; `innerStep` is the wrapped base optimizer's update
(Adam), taking the squared learning rate and the parameters plus its own
state. -/
structure Framework (E A O B : Type) where
  nlpOf : E → A → B → Nat → Nat → Nat → Nat → ℚ
  batchOf : B → BatchData
  innerStep : ℚ → E × A × O → E × A × O

/-- The loss of one batch at the current parameters (lines 63-64):
the context-encoder forward pass followed by `calculate_loss`. -/
def batchLoss (fw : Framework E A O B) (chunks : Nat)
    (nets : Nets E A) (b : B) : ℚ :=
  calculate_loss (fw.nlpOf nets.enc nets.ar b) (fw.batchOf b) chunks

/-- The per-batch operations of `train_epoch`'s loop body, in source order
(lines 62-66). -/
inductive TrainEv where
  | zero_grad
  | forward
  | loss_comp
  | backward
  | opt_step
deriving DecidableEq

/-- Result of `train_epoch`: the models, the scheduled optimizer, the
accumulated `total_loss`, and the trace of per-batch operations. -/
structure TrainRes (E A O : Type) where
  nets : Nets E A
  sched : ScheduledOptim O
  total : ℚ
  events : List TrainEv

/-- Lines 57-58: `model_i.train()` for both models. -/
def trainNets (nets : Nets E A) : Nets E A :=
  { nets with encTrain := true, arTrain := true }

/-- Lines 80-81: `model_i.eval()` for both models. -/
def evalNets (nets : Nets E A) : Nets E A :=
  { nets with encTrain := false, arTrain := false }

/-- The parameter/optimizer update of one training batch:
`optimizer.step_and_update_lr()` (line 66) applied to the current
parameters (gradients of the freshly computed loss are implicit in
`innerStep`). -/
def trainStepState (fw : Framework E A O B) (nets : Nets E A)
    (sched : ScheduledOptim O) : Nets E A × ScheduledOptim O :=
  let ps := step_and_update_lr fw.innerStep (nets.enc, nets.ar) sched
  ({ nets with enc := ps.1.1, ar := ps.1.2 }, ps.2)

/-- One iteration of `train_epoch`'s loop (lines 61-67): zero the
gradients, run the context encoder, compute the loss at the current
parameters, backpropagate, take one scheduled-optimizer step, and
accumulate `loss.item()`. -/
def trainStep (fw : Framework E A O B) (chunks : Nat)
    (r : TrainRes E A O) (b : B) : TrainRes E A O :=
  let loss := batchLoss fw chunks r.nets b
  let st := trainStepState fw r.nets r.sched
  { nets := st.1, sched := st.2, total := r.total + loss,
    events := r.events ++ [TrainEv.zero_grad, TrainEv.forward,
      TrainEv.loss_comp, TrainEv.backward, TrainEv.opt_step] }

/-- The function `train_epoch` (lines 49-69): put both models in train mode, fold the
loop body over the batches, return the accumulated total loss (with the
final state and the event trace made explicit). -/
def train_epoch (fw : Framework E A O B) (chunks : Nat) (batches : List B)
    (nets : Nets E A) (sched : ScheduledOptim O) : TrainRes E A O :=
  batches.foldl (trainStep fw chunks) ⟨trainNets nets, sched, 0, []⟩

/-- The list of per-batch losses produced while `train_epoch` runs,
each computed at the parameters current when its batch is processed. -/
def trainLossTrace (fw : Framework E A O B) (chunks : Nat) :
    List B → Nets E A → ScheduledOptim O → List ℚ
  | [], _, _ => []
  | b :: bs, nets, sched =>
      batchLoss fw chunks nets b ::
        trainLossTrace fw chunks bs (trainStepState fw nets sched).1
          (trainStepState fw nets sched).2

/-- The expected event trace of an epoch: the five per-batch operations,
once per batch, in order. -/
def epochEvents : List B → List TrainEv
  | [] => []
  | _ :: bs => [TrainEv.zero_grad, TrainEv.forward, TrainEv.loss_comp,
      TrainEv.backward, TrainEv.opt_step] ++ epochEvents bs

/-- Result of `eval_epoch`: the models (modes switched, parameters
untouched) and the accumulated total loss.  `eval_epoch` receives no
optimizer (line 73). -/
structure EvalRes (E A : Type) where
  nets : Nets E A
  total : ℚ

/-- The function `eval_epoch` (lines 73-89): put both models in eval mode and, inside
`torch.no_grad()`, accumulate each batch's loss; no backpropagation and no
optimizer call, so the parameters carried along are never updated. -/
def eval_epoch (fw : Framework E A O B) (chunks : Nat) (batches : List B)
    (nets : Nets E A) : EvalRes E A :=
  batches.foldl
    (fun r b => { r with total := r.total + batchLoss fw chunks r.nets b })
    ⟨evalNets nets, 0⟩

/-- The two checkpoint file names `main` writes: `model_{n}.pkl` and
`best_model.pkl` (lines 222 and 233). -/
inductive SaveName where
  | model_ckpt (n : Nat)
  | best_model
deriving DecidableEq

/-- A value stored in the checkpoint dictionary: encoder weights,
autoregressive-model weights, optimizer state, or the epoch number. -/
inductive CkptVal (E A O : Type) where
  | ctx (e : E)
  | arw (a : A)
  | optim (o : O)
  | epochNum (n : Nat)

/-- The `states` dictionary `main` serializes (lines 216-221 and 227-232):
exactly four entries, keyed as in the source. -/
def mkStates (e : E) (a : A) (o : O) (n : Nat) : List (String × CkptVal E A O) :=
  [("context_state", CkptVal.ctx e), ("ar_model_state", CkptVal.arw a),
   ("optimizer", CkptVal.optim o), ("epoch", CkptVal.epochNum n)]

/-- Line 198: `best_eval_loss = 1e10`. -/
def INIT_BEST : ℚ := 10000000000

/-- The mutable state of `main`'s epoch loop: the models, the scheduled
optimizer, `best_eval_loss`, the logged eval losses
(`writer.add_scalar('Loss/test', …)`), and the checkpoint files written so
far, in order. -/
structure MainState (E A O : Type) where
  nets : Nets E A
  sched : ScheduledOptim O
  best : ℚ
  evalLog : List ℚ
  saves : List (SaveName × List (String × CkptVal E A O))

/-- One iteration of `main`'s epoch loop (lines 208-236), parametric in
the chunk count passed to the epoch drivers: train, evaluate, write the
periodic checkpoint when `(n+1) % 10 == 0`, and rewrite the best-loss
checkpoint when the epoch's eval loss strictly improves on
`best_eval_loss`. -/
def epochBodyWithChunk (chunks : Nat) (fw : Framework E A O B)
    (trainBatches evalBatches : List B) (s : MainState E A O) (n : Nat) :
    MainState E A O :=
  let tr := train_epoch fw chunks trainBatches s.nets s.sched
  let ev := eval_epoch fw chunks evalBatches tr.nets
  let eval_loss := ev.total
  let periodic := if (n + 1) % 10 = 0 then
      [(SaveName.model_ckpt n, mkStates ev.nets.enc ev.nets.ar tr.sched.inner n)]
    else []
  let bestSaves := if eval_loss < s.best then
      [(SaveName.best_model, mkStates ev.nets.enc ev.nets.ar tr.sched.inner n)]
    else []
  { nets := ev.nets, sched := tr.sched,
    best := if eval_loss < s.best then eval_loss else s.best,
    evalLog := s.evalLog ++ [eval_loss],
    saves := s.saves ++ (periodic ++ bestSaves) }

/-- The epoch body `main` actually runs: the chunk count is the literal
`40` (lines 211-212), regardless of the CLI `--batch_size`. -/
def mainEpochBody (fw : Framework E A O B) (trainBatches evalBatches : List B) :
    MainState E A O → Nat → MainState E A O :=
  epochBodyWithChunk 40 fw trainBatches evalBatches

/-- The epoch loop of `main`, folded over a list of epoch indices. -/
def mainLoop (fw : Framework E A O B) (trainBatches evalBatches : List B)
    (epochs : List Nat) (s : MainState E A O) : MainState E A O :=
  epochs.foldl (mainEpochBody fw trainBatches evalBatches) s

/-- The state `main` starts its loop with: `best_eval_loss = 1e10`, no
logs, no checkpoints written. -/
def initMain (nets : Nets E A) (sched : ScheduledOptim O) : MainState E A O :=
  { nets := nets, sched := sched, best := INIT_BEST, evalLog := [], saves := [] }

/-- The eval loss an epoch starting from state `s` produces (the value of
`eval_loss` inside the loop body, lines 211-212). -/
def epochEvalLoss (fw : Framework E A O B) (trainBatches evalBatches : List B)
    (s : MainState E A O) : ℚ :=
  (eval_epoch fw 40 evalBatches
    (train_epoch fw 40 trainBatches s.nets s.sched).nets).total

/-- The semantics of `toolz.partition(n, seq)`: the complete groups of `n` consecutive
elements (any incomplete trailing group is dropped). -/
def partitionList (n : Nat) (l : List α) : List (List α) :=
  (List.range (l.length / n)).map (fun i => (l.drop (i * n)).take n)

/-- The function `get_torch_dataloader` (lines 92-104): the shuffled index list (the
shuffle is abstracted as the given order) grouped into batches of
`batch_size` indices each by `toolz.partition`. -/
def get_torch_dataloader (batch_size : Nat) (data_index : List ι) :
    List (List ι) :=
  partitionList batch_size data_index

/-- The function `main` (lines 107-236), restricted to its loop-relevant data flow: the
CLI `--batch_size` only groups the index lists into batches; the loop
itself runs `List.range' start_epoch (num_epochs - start_epoch)` with the
chunk count fixed at 40 inside `mainEpochBody`. -/
def main (fw : Framework E A O (List ι)) (cli_batch_size : Nat)
    (trainIdx evalIdx : List ι) (start_epoch num_epochs : Nat)
    (nets : Nets E A) (inner : O) : MainState E A O :=
  mainLoop fw (get_torch_dataloader cli_batch_size trainIdx)
    (get_torch_dataloader cli_batch_size evalIdx)
    (List.range' start_epoch (num_epochs - start_epoch))
    (initMain nets (mainSchedInit inner))

/-- Pointwise predicate over a list, stated without a membership binder. -/
def allSaves (P : α → Prop) : List α → Prop
  | [] => True
  | x :: xs => P x ∧ allSaves P xs

/- ### Arithmetic facts about the slicing and the mask -/

theorem offset_pos (L batch_size : Nat) : 1 ≤ offset L batch_size :=
  le_max_right _ _

theorem div_mul_add (o q s : Nat) (ho : 0 < o) (hs : s < o) : (o * q + s) / o = q := by
  rw [Nat.mul_add_div ho, Nat.div_eq_of_lt hs, Nat.add_zero]

theorem sliceIndices_closed (o : Nat) (ho : 1 ≤ o) (t : Nat) :
    sliceIndices t o = (List.range ((t + o - 1) / o)).map (fun j => j * o) := by
  induction t with
  | zero =>
      have h0 : (o - 1) / o = 0 := Nat.div_eq_of_lt (by omega)
      simp [sliceIndices, h0]
  | succ t ih =>
      have hq : o * (t / o) + t % o = t := Nat.div_add_mod t o
      have hr : t % o < o := Nat.mod_lt _ (by omega)
      have hmul : o * (t / o + 1) = o * (t / o) + o := by ring
      have hstep : sliceIndices (t + 1) o =
          sliceIndices t o ++ List.filter (fun k => k % o == 0) [t] := by
        rw [sliceIndices, sliceIndices, List.range_succ, List.filter_append]
      by_cases hmod : t % o = 0
      · have hceil : (t + 1 + o - 1) / o = t / o + 1 := by
          have e : t + 1 + o - 1 = o * (t / o + 1) + 0 := by omega
          rw [e, div_mul_add o _ 0 (by omega) (by omega)]
        have hfloor : (t + o - 1) / o = t / o := by
          have e : t + o - 1 = o * (t / o) + (o - 1) := by omega
          rw [e, div_mul_add o _ _ (by omega) (by omega)]
        rw [hfloor] at ih
        have hto : t / o * o = t := by
          have := Nat.mul_comm (t / o) o
          omega
        rw [hstep, ih, hceil, List.range_succ, List.map_append]
        simp [hmod, hto]
      · have hceil : (t + 1 + o - 1) / o = t / o + 1 := by
          have e : t + 1 + o - 1 = o * (t / o + 1) + t % o := by omega
          rw [e, div_mul_add o _ _ (by omega) hr]
        have hfloor : (t + o - 1) / o = t / o + 1 := by
          have e : t + o - 1 = o * (t / o + 1) + (t % o - 1) := by omega
          rw [e, div_mul_add o _ _ (by omega) (by omega)]
        rw [hfloor] at ih
        rw [hstep, ih, hceil]
        simp [hmod]

theorem sliceIndices_lt (t o p : Nat) (hp : p ∈ sliceIndices t o) : p < t := by
  have h := List.mem_filter.mp hp
  exact List.mem_range.mp h.1

theorem sliceIndices_length (L batch_size : Nat) :
    (sliceIndices (total_length L batch_size) (offset L batch_size)).length =
      pointsCount L batch_size := by
  rw [sliceIndices_closed _ (offset_pos L batch_size)]
  simp [pointsCount]

theorem sliceIndices_getD (L batch_size j : Nat) (h : j < pointsCount L batch_size) :
    (sliceIndices (total_length L batch_size) (offset L batch_size)).getD j 0 =
      j * offset L batch_size := by
  rw [sliceIndices_closed _ (offset_pos L batch_size)]
  have hlen : j < ((List.range ((total_length L batch_size + offset L batch_size - 1) /
      offset L batch_size)).map (fun j => j * offset L batch_size)).length := by
    simpa [pointsCount] using h
  rw [List.getD_eq_getElem _ _ hlen]
  simp

theorem mul_offset_lt (L batch_size j : Nat) (h : j < pointsCount L batch_size) :
    j * offset L batch_size < total_length L batch_size := by
  have hmem : j * offset L batch_size ∈
      sliceIndices (total_length L batch_size) (offset L batch_size) := by
    rw [sliceIndices_closed _ (offset_pos L batch_size)]
    exact List.mem_map.mpr ⟨j, List.mem_range.mpr h, rfl⟩
  exact sliceIndices_lt _ _ _ hmem

theorem rowSum_eq (r cols : Nat) : rowSum cols r = min (r + 3) cols := by
  induction cols with
  | zero => simp [rowSum]
  | succ c ih =>
      rw [rowSum, List.range_succ, List.map_append, List.sum_append]
      rw [show ((List.range c).map (fun col => maskEntry r col)).sum = rowSum c r from rfl, ih]
      by_cases hc : c ≤ r + 2 <;> simp [maskEntry, hc] <;> omega

theorem target_value_index_eq (t r : Nat) (h : r < t) :
    target_value_index (t + 2) r = r + 2 := by
  rw [target_value_index, rowSum_eq]
  have : min (r + 3) (t + 2) = r + 3 := Nat.min_eq_left (by omega)
  omega

theorem pointsCount_le (L batch_size : Nat) : pointsCount L batch_size ≤ batch_size := by
  have ho := offset_pos L batch_size
  have ht : total_length L batch_size ≤ batch_size * offset L batch_size :=
    Nat.min_le_left _ _
  have hs : (batch_size + 1) * offset L batch_size =
      batch_size * offset L batch_size + offset L batch_size := Nat.succ_mul _ _
  have hlt : total_length L batch_size + offset L batch_size - 1 <
      (batch_size + 1) * offset L batch_size := by omega
  exact Nat.lt_succ_iff.mp ((Nat.div_lt_iff_lt_mul (by omega)).mpr hlt)

theorem foldl_add_sum (f : Nat → ℚ) (l : List Nat) :
    ∀ a : ℚ, l.foldl (fun acc i => acc + f i) a = a + (l.map f).sum := by
  induction l with
  | nil => intro a; simp
  | cons x xs ih => intro a; simp only [List.foldl_cons, ih, List.map_cons, List.sum_cons]; ring

theorem trajLoss_closed (nlp : Nat → Nat → Nat → ℚ) (tsid : Nat → Nat)
    (L batch_size : Nat) :
    trajLoss nlp tsid L batch_size =
      ((List.range (pointsCount L batch_size)).map (fun j =>
        nlp j (j * offset L batch_size + 2)
          (tsid (j * offset L batch_size)))).sum := by
  simp only [trajLoss, sliceIndices_length]
  congr 1
  apply List.map_congr_left
  intro j hj
  have hjlt : j < pointsCount L batch_size := List.mem_range.mp hj
  rw [sliceIndices_getD L batch_size j hjlt,
    target_value_index_eq _ _ (mul_offset_lt L batch_size j hjlt)]

/- ### Claims about `calculate_loss` (C1, C2, C3, C10) -/

/-- Claim C1: for a trajectory of recorded length `L ≥ 2` and chunk count
`batch_size ≥ 1`, `calculate_loss` chooses the stride
`offset = max(floor(L / batch_size), 1)`, samples the supervision points
`0, offset, 2*offset, …` strictly below
`total_length = min(batch_size * offset, L - 1)`, and the number of
supervision points equals `ceil(total_length / offset)` and is at most
`batch_size`. -/
theorem claim1_offset_and_points (L batch_size : Nat)
    (hL : 2 ≤ L) (hbs : 1 ≤ batch_size) :
    offset L batch_size = max (L / batch_size) 1 ∧
    total_length L batch_size =
      min (batch_size * offset L batch_size) (L - 1) ∧
    sliceIndices (total_length L batch_size) (offset L batch_size) =
      (List.range (pointsCount L batch_size)).map
        (fun j => j * offset L batch_size) ∧
    (∀ p ∈ sliceIndices (total_length L batch_size) (offset L batch_size),
      p < total_length L batch_size) ∧
    (sliceIndices (total_length L batch_size) (offset L batch_size)).length =
      pointsCount L batch_size ∧
    pointsCount L batch_size =
      (total_length L batch_size + offset L batch_size - 1) /
        offset L batch_size ∧
    pointsCount L batch_size ≤ batch_size :=
  ⟨rfl, rfl, sliceIndices_closed _ (offset_pos L batch_size) _,
    fun p hp => sliceIndices_lt _ _ p hp,
    sliceIndices_length L batch_size, rfl, pointsCount_le L batch_size⟩

/-- Witness for C1 at `L = 7`, `batch_size = 3`: each hypothesis is
discharged at a concrete input. -/
theorem claim1_offset_and_points_witness :
    pointsCount 7 3 ≤ 3 ∧
      (sliceIndices (total_length 7 3) (offset 7 3)).length = pointsCount 7 3 :=
  ⟨(claim1_offset_and_points 7 3 (by decide) (by decide)).2.2.2.2.2.2,
    (claim1_offset_and_points 7 3 (by decide) (by decide)).2.2.2.2.1⟩

/-- Claim C2: the mask passed to the autoregressive model is
`tril(ones(total_length, total_length+2), diagonal=2)` restricted to every
`offset`-th row: sliced row `j` is original row `j*offset`, it makes
exactly the positions `0 … j*offset+2` visible, and the derived target
position `target_value_index[j] = row-sum − 1` equals `j*offset + 2`. -/
theorem claim2_mask_rows_and_target (L batch_size j : Nat)
    (hj : j < pointsCount L batch_size) :
    (sliceIndices (total_length L batch_size) (offset L batch_size)).getD j 0 =
      j * offset L batch_size ∧
    (∀ c < total_length L batch_size + 2,
      (maskEntry (j * offset L batch_size) c = 1 ↔
        c ≤ j * offset L batch_size + 2)) ∧
    target_value_index (total_length L batch_size + 2)
        (j * offset L batch_size) =
      j * offset L batch_size + 2 := by
  refine ⟨sliceIndices_getD L batch_size j hj, ?_,
    target_value_index_eq _ _ (mul_offset_lt L batch_size j hj)⟩
  intro c _
  by_cases hc : c ≤ j * offset L batch_size + 2 <;> simp [maskEntry, hc]

/-- Witness for C2 at `L = 10`, `batch_size = 3`, `j = 1` (so `offset = 3`,
`total_length = 9`). -/
theorem claim2_mask_rows_and_target_witness :
    target_value_index (total_length 10 3 + 2) (1 * offset 10 3) =
      1 * offset 10 3 + 2 :=
  (claim2_mask_rows_and_target 10 3 1 (by decide)).2.2

/-- Claim C3: `calculate_loss` returns the sum over the batch's
trajectories of the per-trajectory sums of the gathered negative
log-softmax entries at the sampled target positions and true next keys,
divided by the number of trajectories (`batch_data['map'].shape[0]`):
the loss is averaged over trajectories, not over supervision points. -/
theorem claim3_loss_averages_over_trajectories
    (nlp : Nat → Nat → Nat → Nat → ℚ) (batch_data : BatchData)
    (batch_size : Nat) :
    calculate_loss nlp batch_data batch_size =
      ((List.range batch_data.numTraj).map (fun i =>
        ((List.range (pointsCount (batch_data.length i) batch_size)).map
          (fun j =>
            nlp i j (j * offset (batch_data.length i) batch_size + 2)
              (batch_data.target_seq_id i
                (j * offset (batch_data.length i) batch_size)))).sum)).sum /
        (batch_data.numTraj : ℚ) := by
  rw [calculate_loss, foldl_add_sum, zero_add]
  congr 1
  apply congrArg List.sum
  apply List.map_congr_left
  intro i _
  exact trajLoss_closed (nlp i) _ _ _

/-- Claim C10: for `L ≥ 2` and `batch_size ≥ 1` all indexing of
`calculate_loss` stays in bounds: every sampled label position is strictly
below `total_length ≤ L - 1`, and every derived target position
`p + 2` is strictly below `total_length + 2`, the sequence dimension of
the concatenated model input (two context positions plus `total_length`
input positions) and of the model output. -/
theorem claim10_indexing_in_bounds (L batch_size : Nat)
    (hL : 2 ≤ L) (hbs : 1 ≤ batch_size) :
    total_length L batch_size ≤ L - 1 ∧
    ∀ p ∈ sliceIndices (total_length L batch_size) (offset L batch_size),
      p < total_length L batch_size ∧
      target_value_index (total_length L batch_size + 2) p = p + 2 ∧
      p + 2 < total_length L batch_size + 2 := by
  refine ⟨Nat.min_le_right _ _, ?_⟩
  intro p hp
  have hlt := sliceIndices_lt _ _ p hp
  exact ⟨hlt, target_value_index_eq _ _ hlt, by omega⟩

/-- Witness for C10 at `L = 5`, `batch_size = 2`. -/
theorem claim10_indexing_in_bounds_witness :
    total_length 5 2 ≤ 5 - 1 ∧ (2 < total_length 5 2 ∧
      target_value_index (total_length 5 2 + 2) 2 = 2 + 2 ∧
      2 + 2 < total_length 5 2 + 2) :=
  ⟨(claim10_indexing_in_bounds 5 2 (by decide) (by decide)).1,
    (claim10_indexing_in_bounds 5 2 (by decide) (by decide)).2 2 (by decide)⟩

/- ### The epoch drivers (C4, C5) -/

theorem train_fold (fw : Framework E A O B) (chunks : Nat) :
    ∀ (batches : List B) (r : TrainRes E A O),
      (batches.foldl (trainStep fw chunks) r).nets.encTrain = r.nets.encTrain ∧
      (batches.foldl (trainStep fw chunks) r).nets.arTrain = r.nets.arTrain ∧
      (batches.foldl (trainStep fw chunks) r).sched.n_steps =
        r.sched.n_steps + batches.length ∧
      (batches.foldl (trainStep fw chunks) r).total =
        r.total + (trainLossTrace fw chunks batches r.nets r.sched).sum ∧
      (batches.foldl (trainStep fw chunks) r).events =
        r.events ++ epochEvents batches := by
  intro batches
  induction batches with
  | nil => intro r; simp [trainLossTrace, epochEvents]
  | cons b bs ih =>
      intro r
      obtain ⟨h1, h2, h3, h4, h5⟩ := ih (trainStep fw chunks r b)
      refine ⟨?_, ?_, ?_, ?_, ?_⟩
      · rw [List.foldl_cons, h1]; rfl
      · rw [List.foldl_cons, h2]; rfl
      · rw [List.foldl_cons, h3]
        show (trainStepState fw r.nets r.sched).2.n_steps + bs.length = _
        show (step_and_update_lr fw.innerStep (r.nets.enc, r.nets.ar) r.sched).2.n_steps
          + bs.length = _
        simp [step_and_update_lr, List.length_cons]
        omega
      · rw [List.foldl_cons, h4]
        show r.total + batchLoss fw chunks r.nets b +
            (trainLossTrace fw chunks bs (trainStepState fw r.nets r.sched).1
              (trainStepState fw r.nets r.sched).2).sum = _
        rw [trainLossTrace, List.sum_cons]
        ring
      · rw [List.foldl_cons, h5]
        show r.events ++ _ ++ epochEvents bs = r.events ++ epochEvents (b :: bs)
        rw [epochEvents, List.append_assoc]

/-- Claim C4: `train_epoch` puts both models into training mode and, for
every batch in order, performs a gradient reset, a context-encoder forward
pass, a loss computation via `calculate_loss`, backpropagation and exactly
one scheduled-optimizer step (the step counter grows by the number of
batches); it returns the sum over all batches of the scalar per-batch
losses, each computed at the parameters current for its batch. -/
theorem claim4_train_epoch (fw : Framework E A O B) (chunks : Nat)
    (batches : List B) (nets : Nets E A) (sched : ScheduledOptim O) :
    (train_epoch fw chunks batches nets sched).nets.encTrain = true ∧
    (train_epoch fw chunks batches nets sched).nets.arTrain = true ∧
    (train_epoch fw chunks batches nets sched).events = epochEvents batches ∧
    (train_epoch fw chunks batches nets sched).sched.n_steps =
      sched.n_steps + batches.length ∧
    (train_epoch fw chunks batches nets sched).total =
      (trainLossTrace fw chunks batches (trainNets nets) sched).sum := by
  obtain ⟨h1, h2, h3, h4, h5⟩ :=
    train_fold fw chunks batches ⟨trainNets nets, sched, 0, []⟩
  exact ⟨h1, h2, h5.trans (List.nil_append _), h3, h4.trans (zero_add _)⟩

theorem eval_fold (fw : Framework E A O B) (chunks : Nat) :
    ∀ (batches : List B) (r : EvalRes E A),
      (batches.foldl
        (fun r b => { r with total := r.total + batchLoss fw chunks r.nets b })
        r).nets = r.nets ∧
      (batches.foldl
        (fun r b => { r with total := r.total + batchLoss fw chunks r.nets b })
        r).total = r.total + (batches.map (batchLoss fw chunks r.nets)).sum := by
  intro batches
  induction batches with
  | nil => intro r; simp
  | cons b bs ih =>
      intro r
      obtain ⟨h1, h2⟩ := ih { r with total := r.total + batchLoss fw chunks r.nets b }
      refine ⟨by rw [List.foldl_cons]; exact h1, ?_⟩
      rw [List.foldl_cons, h2, List.map_cons, List.sum_cons]
      ring

/-- Claim C5: `eval_epoch` puts both models into evaluation mode and
accumulates every batch's loss with no optimizer call and no parameter
update: the parameters of both models come out unchanged, every per-batch
loss is computed at those unchanged parameters, and (optimizer frame) the
scheduled optimizer of `main`'s epoch body is exactly the one
`train_epoch` returned — `eval_epoch` is not even passed the optimizer. -/
theorem claim5_eval_epoch (fw : Framework E A O B) (chunks : Nat)
    (batches : List B) (nets : Nets E A) :
    (eval_epoch fw chunks batches nets).nets.enc = nets.enc ∧
    (eval_epoch fw chunks batches nets).nets.ar = nets.ar ∧
    (eval_epoch fw chunks batches nets).nets.encTrain = false ∧
    (eval_epoch fw chunks batches nets).nets.arTrain = false ∧
    (eval_epoch fw chunks batches nets).total =
      (batches.map (batchLoss fw chunks nets)).sum ∧
    (∀ (tb eb : List B) (s : MainState E A O) (n : Nat),
      (mainEpochBody fw tb eb s n).sched =
        (train_epoch fw 40 tb s.nets s.sched).sched) := by
  obtain ⟨h1, h2⟩ := eval_fold fw chunks batches (⟨evalNets nets, 0⟩ : EvalRes E A)
  refine ⟨by rw [show (eval_epoch fw chunks batches nets).nets = _ from h1]; rfl,
    by rw [show (eval_epoch fw chunks batches nets).nets = _ from h1]; rfl,
    by rw [show (eval_epoch fw chunks batches nets).nets = _ from h1]; rfl,
    by rw [show (eval_epoch fw chunks batches nets).nets = _ from h1]; rfl,
    ?_, fun tb eb s n => rfl⟩
  have h2' := h2.trans (zero_add _)
  exact h2'

/- ### The scheduled optimizer (C8) -/

theorem mainLrSq_eq (n : Nat) :
    mainLrSq n = (1 / 25 : ℚ) / 512 * min (1 / (n : ℚ)) ((n : ℚ) ^ 2 / 2400 ^ 3) := by
  simp [mainLrSq, lrSqOf, mainSchedInit]

theorem warmup_min_eq (k : Nat) (hk : 0 < k) (hk24 : k ≤ 2400) :
    min (1 / (k : ℚ)) ((k : ℚ) ^ 2 / 2400 ^ 3) = (k : ℚ) ^ 2 / 2400 ^ 3 := by
  apply min_eq_right
  have hkq : (0 : ℚ) < (k : ℚ) := by exact_mod_cast hk
  rw [div_le_div_iff₀ (by positivity) hkq]
  have hcast : (k : ℚ) ≤ 2400 := by exact_mod_cast hk24
  calc (k : ℚ) ^ 2 * k = k ^ 3 := by ring
    _ ≤ 2400 ^ 3 := by gcongr
    _ = 1 * 2400 ^ 3 := by ring

theorem mainLrSq_warmup_mono (n m : Nat) (hn : 0 < n) (hnm : n ≤ m)
    (hm : m ≤ 2400) : mainLrSq n ≤ mainLrSq m := by
  rw [mainLrSq_eq, mainLrSq_eq,
    warmup_min_eq n hn (le_trans hnm hm),
    warmup_min_eq m (lt_of_lt_of_le hn hnm) hm]
  have hcast : (n : ℚ) ≤ (m : ℚ) := by exact_mod_cast hnm
  gcongr

/-- Claim C8: `main`'s scheduled optimizer computes the learning rate from
the current step count and the warmup horizon of 2400 steps, applies it to
the wrapped optimizer's update inside the single call
`step_and_update_lr` (which also advances the step counter by exactly
one), and the learning rate — represented throughout by its square, an
order-preserving encoding — is monotonically non-decreasing over the
warmup steps. -/
theorem claim8_scheduled_optim_warmup (E' A' O' : Type) :
    (∀ (innerStep : ℚ → E' × A' × O' → E' × A' × O') (p : E' × A')
        (s : ScheduledOptim O'),
      (step_and_update_lr innerStep p s).2.n_steps = s.n_steps + 1 ∧
      (step_and_update_lr innerStep p s).1 =
        ((innerStep (lrSqOf { s with n_steps := s.n_steps + 1 })
            (p.1, p.2, s.inner)).1,
         (innerStep (lrSqOf { s with n_steps := s.n_steps + 1 })
            (p.1, p.2, s.inner)).2.1) ∧
      (step_and_update_lr innerStep p s).2.inner =
        (innerStep (lrSqOf { s with n_steps := s.n_steps + 1 })
            (p.1, p.2, s.inner)).2.2) ∧
    (∀ n m : Nat, 0 < n → n ≤ m → m ≤ 2400 → mainLrSq n ≤ mainLrSq m) :=
  ⟨fun _ _ _ => ⟨rfl, rfl, rfl⟩,
   fun n m hn hnm hm => mainLrSq_warmup_mono n m hn hnm hm⟩

/-- Witness for C8: the step counter advances by one on `main`'s freshly
built optimizer, and the squared learning rate does not decrease from step
3 to step 5. -/
theorem claim8_scheduled_optim_warmup_witness :
    (step_and_update_lr (fun _ x => x) (((), ()) : Unit × Unit)
        (mainSchedInit ())).2.n_steps = (mainSchedInit ()).n_steps + 1 ∧
    mainLrSq 3 ≤ mainLrSq 5 :=
  ⟨((claim8_scheduled_optim_warmup Unit Unit Unit).1 (fun _ x => x) ((), ())
      (mainSchedInit ())).1,
   (claim8_scheduled_optim_warmup Unit Unit Unit).2 3 5 (by decide) (by decide)
      (by decide)⟩

/- ### The checkpointing loop of `main` (C6, C7, C9) -/

theorem ite_lt_min (a b : ℚ) : (if b < a then b else a) = min a b := by
  rcases le_or_lt a b with h | h
  · rw [min_eq_left h, if_neg (not_lt.mpr h)]
  · rw [min_eq_right h.le, if_pos h]

theorem lt_foldl_min (x : ℚ) : ∀ (l : List ℚ) (a : ℚ),
    x < l.foldl min a ↔ x < a ∧ ∀ e ∈ l, x < e := by
  intro l
  induction l with
  | nil => intro a; simp
  | cons b bs ih =>
      intro a
      rw [List.foldl_cons, ih, lt_min_iff]
      simp only [List.mem_cons, forall_eq_or_imp, and_assoc]

theorem mainEpochBody_best (fw : Framework E A O B) (tb eb : List B)
    (s : MainState E A O) (n : Nat) :
    (mainEpochBody fw tb eb s n).best = min s.best (epochEvalLoss fw tb eb s) := by
  show (if epochEvalLoss fw tb eb s < s.best then epochEvalLoss fw tb eb s
    else s.best) = _
  exact ite_lt_min s.best (epochEvalLoss fw tb eb s)

theorem mainEpochBody_evalLog (fw : Framework E A O B) (tb eb : List B)
    (s : MainState E A O) (n : Nat) :
    (mainEpochBody fw tb eb s n).evalLog =
      s.evalLog ++ [epochEvalLoss fw tb eb s] := rfl

theorem mainEpochBody_saves_eq (fw : Framework E A O B) (tb eb : List B)
    (s : MainState E A O) (n : Nat) :
    (mainEpochBody fw tb eb s n).saves =
      s.saves ++
        ((if (n + 1) % 10 = 0 then
          [(SaveName.model_ckpt n,
            mkStates
              (eval_epoch fw 40 eb (train_epoch fw 40 tb s.nets s.sched).nets).nets.enc
              (eval_epoch fw 40 eb (train_epoch fw 40 tb s.nets s.sched).nets).nets.ar
              (train_epoch fw 40 tb s.nets s.sched).sched.inner n)]
         else []) ++
        (if epochEvalLoss fw tb eb s < s.best then
          [(SaveName.best_model,
            mkStates
              (eval_epoch fw 40 eb (train_epoch fw 40 tb s.nets s.sched).nets).nets.enc
              (eval_epoch fw 40 eb (train_epoch fw 40 tb s.nets s.sched).nets).nets.ar
              (train_epoch fw 40 tb s.nets s.sched).sched.inner n)]
         else [])) := rfl

theorem mainEpochBody_saves_drop (fw : Framework E A O B) (tb eb : List B)
    (s : MainState E A O) (n : Nat) :
    (mainEpochBody fw tb eb s n).saves.drop s.saves.length =
      ((if (n + 1) % 10 = 0 then
        [(SaveName.model_ckpt n,
          mkStates
            (eval_epoch fw 40 eb (train_epoch fw 40 tb s.nets s.sched).nets).nets.enc
            (eval_epoch fw 40 eb (train_epoch fw 40 tb s.nets s.sched).nets).nets.ar
            (train_epoch fw 40 tb s.nets s.sched).sched.inner n)]
       else []) ++
      (if epochEvalLoss fw tb eb s < s.best then
        [(SaveName.best_model,
          mkStates
            (eval_epoch fw 40 eb (train_epoch fw 40 tb s.nets s.sched).nets).nets.enc
            (eval_epoch fw 40 eb (train_epoch fw 40 tb s.nets s.sched).nets).nets.ar
            (train_epoch fw 40 tb s.nets s.sched).sched.inner n)]
       else [])) := by
  rw [mainEpochBody_saves_eq, List.drop_left]

theorem best_save_mem (fw : Framework E A O B) (tb eb : List B)
    (s : MainState E A O) (n : Nat) :
    (SaveName.best_model ∈
        ((mainEpochBody fw tb eb s n).saves.drop s.saves.length).map Prod.fst) ↔
      epochEvalLoss fw tb eb s < s.best := by
  rw [mainEpochBody_saves_drop]
  by_cases h10 : (n + 1) % 10 = 0 <;>
    by_cases hel : epochEvalLoss fw tb eb s < s.best <;>
      simp [h10, hel]

theorem mainLoop_best (fw : Framework E A O B) (tb eb : List B) :
    ∀ (epochs : List Nat) (s : MainState E A O),
      s.best = s.evalLog.foldl min INIT_BEST →
      (mainLoop fw tb eb epochs s).best =
        (mainLoop fw tb eb epochs s).evalLog.foldl min INIT_BEST := by
  intro epochs
  induction epochs with
  | nil => intro s h; exact h
  | cons n ns ih =>
      intro s h
      show (mainLoop fw tb eb ns (mainEpochBody fw tb eb s n)).best = _
      apply ih
      rw [mainEpochBody_best, mainEpochBody_evalLog, h, List.foldl_append]
      simp

/-- Claim C6: in `main`'s epoch loop, after every epoch `best_eval_loss`
equals the minimum of the initial value `1e10` and all evaluation losses
observed so far, and the best-loss checkpoint `best_model.pkl` is written
in the next epoch exactly when that epoch's evaluation loss is strictly
smaller than every earlier epoch's evaluation loss and than `1e10`. -/
theorem claim6_best_eval_loss_invariant (fw : Framework E A O B)
    (tb eb : List B) (nets : Nets E A) (sched : ScheduledOptim O)
    (epochs : List Nat) (n : Nat) :
    (mainLoop fw tb eb epochs (initMain nets sched)).best =
      (mainLoop fw tb eb epochs (initMain nets sched)).evalLog.foldl min
        INIT_BEST ∧
    ((SaveName.best_model ∈
        ((mainEpochBody fw tb eb (mainLoop fw tb eb epochs (initMain nets sched))
            n).saves.drop
          (mainLoop fw tb eb epochs (initMain nets sched)).saves.length).map
          Prod.fst) ↔
      (epochEvalLoss fw tb eb (mainLoop fw tb eb epochs (initMain nets sched)) <
          INIT_BEST ∧
        ∀ e ∈ (mainLoop fw tb eb epochs (initMain nets sched)).evalLog,
          epochEvalLoss fw tb eb (mainLoop fw tb eb epochs (initMain nets sched))
            < e)) := by
  have hinv := mainLoop_best fw tb eb epochs (initMain nets sched) rfl
  refine ⟨hinv, ?_⟩
  rw [best_save_mem, hinv]
  exact lt_foldl_min _ _ _

theorem allSaves_append (P : α → Prop) :
    ∀ l1 l2 : List α, allSaves P l1 → allSaves P l2 → allSaves P (l1 ++ l2) := by
  intro l1
  induction l1 with
  | nil => intro l2 _ h2; exact h2
  | cons x xs ih => intro l2 h1 h2; exact ⟨h1.1, ih l2 h1.2 h2⟩

theorem mainLoop_saves_wellformed (fw : Framework E A O B) (tb eb : List B) :
    ∀ (epochs : List Nat) (s : MainState E A O),
      allSaves (fun sv => sv.2.map Prod.fst =
            ["context_state", "ar_model_state", "optimizer", "epoch"] ∧
          sv.2.length = 4 ∧ ∃ e a o m, sv.2 = mkStates e a o m) s.saves →
      allSaves (fun sv => sv.2.map Prod.fst =
            ["context_state", "ar_model_state", "optimizer", "epoch"] ∧
          sv.2.length = 4 ∧ ∃ e a o m, sv.2 = mkStates e a o m)
        (mainLoop fw tb eb epochs s).saves := by
  intro epochs
  induction epochs with
  | nil => intro s h; exact h
  | cons n ns ih =>
      intro s h
      show allSaves _ (mainLoop fw tb eb ns (mainEpochBody fw tb eb s n)).saves
      apply ih
      rw [mainEpochBody_saves_eq]
      apply allSaves_append _ _ _ h
      apply allSaves_append
      · by_cases h10 : (n + 1) % 10 = 0 <;> simp [h10, allSaves, mkStates]
      · by_cases hel : epochEvalLoss fw tb eb s < s.best <;>
          simp [hel, allSaves, mkStates]

/-- Claim C7: every checkpoint `main` writes — the periodic one, named
`model_{n}.pkl` exactly when `(n+1) % 10 == 0`, and the best-loss one
named `best_model.pkl` — is a single serialized dictionary with exactly
four entries: the context-encoder weight state, the
autoregressive-model weight state, the optimizer state and the epoch
number `n`. -/
theorem claim7_checkpoint_contents (fw : Framework E A O B) (tb eb : List B)
    (nets : Nets E A) (sched : ScheduledOptim O) (epochs : List Nat) :
    allSaves (fun sv => sv.2.map Prod.fst =
          ["context_state", "ar_model_state", "optimizer", "epoch"] ∧
        sv.2.length = 4 ∧ ∃ e a o m, sv.2 = mkStates e a o m)
      (mainLoop fw tb eb epochs (initMain nets sched)).saves ∧
    (∀ (s : MainState E A O) (n : Nat),
      (mainEpochBody fw tb eb s n).saves.drop s.saves.length =
        ((if (n + 1) % 10 = 0 then
          [(SaveName.model_ckpt n,
            mkStates
              (eval_epoch fw 40 eb (train_epoch fw 40 tb s.nets s.sched).nets).nets.enc
              (eval_epoch fw 40 eb (train_epoch fw 40 tb s.nets s.sched).nets).nets.ar
              (train_epoch fw 40 tb s.nets s.sched).sched.inner n)]
         else []) ++
        (if epochEvalLoss fw tb eb s < s.best then
          [(SaveName.best_model,
            mkStates
              (eval_epoch fw 40 eb (train_epoch fw 40 tb s.nets s.sched).nets).nets.enc
              (eval_epoch fw 40 eb (train_epoch fw 40 tb s.nets s.sched).nets).nets.ar
              (train_epoch fw 40 tb s.nets s.sched).sched.inner n)]
         else []))) :=
  ⟨mainLoop_saves_wellformed fw tb eb epochs (initMain nets sched) trivial,
   fun s n => mainEpochBody_saves_drop fw tb eb s n⟩

theorem partitionList_mem_length (n : Nat) (l g : List α)
    (hg : g ∈ partitionList n l) : g.length = n := by
  obtain ⟨i, hi, heq⟩ := List.mem_map.mp hg
  have hi' : i < l.length / n := List.mem_range.mp hi
  have hn : 0 < n := by
    by_contra hc
    have h0 : n = 0 := by omega
    subst h0
    rw [Nat.div_zero] at hi'
    exact absurd hi' (Nat.not_lt_zero i)
  have h1 : (i + 1) * n ≤ l.length / n * n :=
    Nat.mul_le_mul_right _ (by omega)
  have h2 : l.length / n * n ≤ l.length := Nat.div_mul_le_self _ _
  have hmul : (i + 1) * n = i * n + n := Nat.succ_mul _ _
  rw [← heq]
  simp only [List.length_take, List.length_drop]
  omega

/-- Claim C9: `main` always invokes the epoch drivers with the chunk count
fixed to the literal `40`, so the number of supervision points per
trajectory is capped at `40` for every run, independently of the CLI
`--batch_size` argument, which only determines how many trajectory indices
are grouped into each batch. -/
theorem claim9_chunk_count_is_40 (E' A' O' B' ι' : Type) :
    (∀ (fw : Framework E' A' O' B') (tb eb : List B') (s : MainState E' A' O')
        (k : Nat),
      mainEpochBody fw tb eb s k = epochBodyWithChunk 40 fw tb eb s k) ∧
    (∀ (fw : Framework E' A' O' (List ι')) (cli_batch_size : Nat)
        (trainIdx evalIdx : List ι') (start_epoch num_epochs : Nat)
        (nets : Nets E' A') (inner : O'),
      main fw cli_batch_size trainIdx evalIdx start_epoch num_epochs nets inner =
        mainLoop fw (get_torch_dataloader cli_batch_size trainIdx)
          (get_torch_dataloader cli_batch_size evalIdx)
          (List.range' start_epoch (num_epochs - start_epoch))
          (initMain nets (mainSchedInit inner))) ∧
    (∀ L : Nat, pointsCount L 40 ≤ 40) ∧
    (∀ (bs : Nat) (idx g : List ι'),
      g ∈ get_torch_dataloader bs idx → g.length = bs) :=
  ⟨fun _ _ _ _ _ => rfl, fun _ _ _ _ _ _ _ _ => rfl,
   fun L => pointsCount_le L 40,
   fun bs idx g hg => partitionList_mem_length bs idx g hg⟩

/-- Witness for C9: the supervision-point cap at `L = 10`, and a concrete
batch grouped by `--batch_size = 2`. -/
theorem claim9_chunk_count_is_40_witness :
    pointsCount 10 40 ≤ 40 ∧ ([2, 3] : List Nat).length = 2 :=
  ⟨(claim9_chunk_count_is_40 Unit Unit Unit Unit Nat).2.2.1 10,
   (claim9_chunk_count_is_40 Unit Unit Unit Unit Nat).2.2.2 2 [0, 1, 2, 3, 4]
     [2, 3] (by decide)⟩

end TrainStage2
